import Mathlib

/-!
Verification of the phoebe transport core against its specification.

The definitions below are shallow embeddings of the C++ sources:

* `workDivisionHead`/`workDivisionTail` embed `MPIcontroller::divideWork`
  (mpiController implementation, both revisions present in the tree).
* `blacsGridInit` embeds the BLACS process-grid setup in the
  `MPIcontroller` constructor.
* `phononTransportRun` embeds the control flow of
  `PhononTransportApp::run` (apps/phonon_transport_app.cpp).
* `bteLoop` with `osStep`/`cgStep` embed the Omini-Sparavigna iterative
  solver loop and the variational conjugate-gradient loop of the same file.
* `MatrixT` with `MatrixT.prodDouble`, `MatrixT.prodComplex` and
  `MatrixT.diagonalizeW` embed the explicit template specializations of
  the dense-matrix wrapper (SMatrix implementation file).
* `offDiagonalDot` and `population2Canonical` model, from the
  specification's words, scattering-matrix and BTE-vector operations whose
  implementations are not among the staged sources.

Machine floating-point numbers are modelled by exact rationals, machine
integers by `Nat`; the claims treated here are exact algebraic or
control-flow statements for which this is the intended reading.
-/

/-- Embeds the head of rank r's task range in `MPIcontroller::divideWork`:
`workDivisionHeads[r] = (numTasks * r)/size` with integer division. -/
def workDivisionHead (numTasks size r : Nat) : Nat :=
  numTasks * r / size

/-- Embeds the (exclusive) tail of rank r's task range in
`MPIcontroller::divideWork`: `workDivisionTails[r] = (numTasks * (r+1))/size`. -/
def workDivisionTail (numTasks size r : Nat) : Nat :=
  numTasks * (r + 1) / size

/-- Embeds the BLACS grid setup in the `MPIcontroller` constructor:
`numBlasRows_ = (int)(sqrt(size))` (rounding down), `numBlasCols_ = numBlasRows_`
(scalapack requires a square grid), and
`if (size > numBlasRows_*numBlasCols_) Error e("Phoebe needs a square number of MPI processes")`.
`Error` terminates the run, modelled as `Except.error`. -/
def blacsGridInit (size : Nat) : Except String (Nat × Nat) :=
  let numBlasRows := Nat.sqrt size
  let numBlasCols := numBlasRows
  if numBlasRows * numBlasCols < size then
    Except.error "Phoebe needs a square number of MPI processes"
  else
    Except.ok (numBlasRows, numBlasCols)

/-- The externally visible stages of `PhononTransportApp::run`, in order of
appearance in the source: the scattering-matrix `setup()` call (line 45), the
always-run RTA solve (lines 47-96), the input-validation block (lines 114-122),
and the three optional exact solvers (lines 126-293). -/
inductive RunEvent where
  | setup
  | rtaSolve
  | precondCheck
  | iterativeRun
  | variationalRun
  | relaxonsRun
deriving DecidableEq, BEq

/-- The configuration knobs of `PhononTransportApp::run` that decide its
control flow: the requested BTE solvers (`context.getSolverBTE()`), whether the
scattering matrix is kept in memory (`context.getScatteringMatrixInMemory()`),
and the number of temperature/chemical-potential calculations
(`statisticsSweep.getNumCalcs()`). -/
structure RunConfig where
  solverBTE : List String
  scatteringMatrixInMemory : Bool
  numCalcs : Nat

/-- Embeds the control flow of `PhononTransportApp::run`: the constructor of the
scattering matrix and `setup()` run first, then the RTA solve, then the
validation block
`if (doRelaxons && !inMemory) Error; if (inMemory && numCalcs != 1) Error;`
and only then the requested exact solvers. `Error` terminates the run, modelled
by returning the error message with the trace of the stages executed so far. -/
def phononTransportRun (cfg : RunConfig) : List RunEvent × Option String :=
  let doIterative := cfg.solverBTE.contains "iterative"
  let doVariational := cfg.solverBTE.contains "variational"
  let doRelaxons := cfg.solverBTE.contains "relaxons"
  let pre := [RunEvent.setup, RunEvent.rtaSolve]
  if doRelaxons && !cfg.scatteringMatrixInMemory then
    (pre ++ [RunEvent.precondCheck], some "Relaxons require matrix kept in memory")
  else if cfg.scatteringMatrixInMemory && cfg.numCalcs != 1 then
    (pre ++ [RunEvent.precondCheck],
      some "If scattering matrix is kept in memory, only one temperature/chemical potential is allowed in a run")
  else
    (pre ++ [RunEvent.precondCheck]
      ++ (if doIterative then [RunEvent.iterativeRun] else [])
      ++ (if doVariational then [RunEvent.variationalRun] else [])
      ++ (if doRelaxons then [RunEvent.relaxonsRun] else []),
      none)

/-- The convergence-loop skeleton shared by the two exact solvers of
`PhononTransportApp::run` (lines 145-166 and 213-251):
`for (iter = 0; iter < maxIterations; iter++)` computes the next state,
derives the transport tensor from it, breaks successfully when
the tensor change passes the convergence test, otherwise updates the state,
and raises `Error e("Reached max BTE iterations without convergence")` when
`iter == maxIterations - 1`. The remaining fuel is `maxIterations - iter`; a
zero iteration budget skips the loop, leaving the RTA tensor in place. -/
def bteLoop {σ γ : Type} (step : σ → σ) (condOf : σ → γ)
    (conv : γ → γ → Bool) : Nat → σ → γ → Except String γ
  | 0, _, condOld => Except.ok condOld
  | fuel + 1, s, condOld =>
    let sNext := step s
    let c := condOf sNext
    if conv c condOld then Except.ok c
    else if fuel = 0 then Except.error "Reached max BTE iterations without convergence"
    else bteLoop step condOf conv fuel sNext c

/-- The sequence of solver states: iterate `step` from the initial state. -/
def stateSeq {σ : Type} (step : σ → σ) (s0 : σ) : Nat → σ
  | 0 => s0
  | k + 1 => step (stateSeq step s0 k)

/-- The sequence of derived transport tensors seen by the loop's convergence
test: the initial (RTA) tensor, then the tensor derived from each state. -/
def condSeq {σ γ : Type} (step : σ → σ) (condOf : σ → γ) (s0 : σ) (c0 : γ) :
    Nat → γ
  | 0 => c0
  | k + 1 => condOf (stateSeq step s0 (k + 1))

/-- The collaborators and inputs of the Omini-Sparavigna iterative solver
(lines 135-166): the scattering-matrix application `offDiagonalDot`, the
elementwise division by the matrix diagonal, BTE-vector subtraction, the
canonical RTA population `fRTA` (`popRTA` after `population2Canonical`), the
transport-tensor derivation `calcFromCanonicalPopulation`, the RTA tensor the
loop starts from, and the convergence threshold with the max-coefficient
norm of a tensor difference. -/
structure OSParams (V γ : Type) where
  offDiagonalDot : V → V
  divByDiagonal : V → V
  sub : V → V → V
  fRTA : V
  calcFromCanonicalPopulation : V → γ
  condRTA : γ
  diffNormMaxCoeff : γ → γ → ℚ
  threshold : ℚ

/-- One iteration of the Omini-Sparavigna recurrence (lines 147-148):
`fNext = fRTA - offDiagonalDot(fOld) / sMatrixDiagonal`. -/
def osStep {V γ : Type} (p : OSParams V γ) (fOld : V) : V :=
  p.sub p.fRTA (p.divByDiagonal (p.offDiagonalDot fOld))

/-- The convergence test of both solvers (lines 156 and 239):
`(phTCond - phTCondOld).getNorm().maxCoeff() < threshold`. -/
def osConv {V γ : Type} (p : OSParams V γ) (c cOld : γ) : Bool :=
  decide (p.diffNormMaxCoeff c cOld < p.threshold)

/-- The transport tensors produced by the iterative solver's iterations. -/
def osCondSeq {V γ : Type} (p : OSParams V γ) : Nat → γ :=
  condSeq (osStep p) p.calcFromCanonicalPopulation p.fRTA p.condRTA

/-- Embeds the Omini-Sparavigna iterative solver loop (lines 145-166). -/
def iterativeSolver {V γ : Type} (p : OSParams V γ) (maxIter : Nat) :
    Except String γ :=
  bteLoop (osStep p) p.calcFromCanonicalPopulation (osConv p) maxIter p.fRTA p.condRTA

/-- The collaborators and inputs of the variational conjugate-gradient solver
(lines 176-251): the full scattering-matrix application `smDot`, elementwise
division by the diagonal, the per-(calculation, direction) `dot` returning a
small dense matrix, elementwise division of such matrices, scaling a BTE
vector by such a matrix, vector arithmetic, the transport-tensor derivation
`calcVariational` applied to the matrix-applied solution and to the solution
(the constant sMatrixDiagonalSqrt argument is folded into it), the RTA
tensor, and the convergence threshold and norm. -/
structure CGParams (V M γ : Type) where
  smDot : V → V
  divByDiagonal : V → V
  dot : V → V → M
  elemDiv : M → M → M
  scale : V → M → V
  sub : V → V → V
  neg : V → V
  add : V → V → V
  calcVariational : V → V → γ
  condRTA : γ
  diffNormMaxCoeff : γ → γ → ℚ
  threshold : ℚ

/-- One conjugate-gradient iteration (lines 216-232), acting on the state
(fOld, gOld, hOld, tOld):
alpha = dot(gOld,hOld)/dot(hOld,tOld); fNew = fOld - hOld*alpha;
gNew = gOld - tOld*alpha; beta = dot(gNew,gNew)/dot(gOld,gOld);
hNew = -gNew + hOld*beta; tNew = smDot(hNew)/diagonal. -/
def cgStep {V M γ : Type} (q : CGParams V M γ) (s : V × V × V × V) :
    V × V × V × V :=
  let fOld := s.1
  let gOld := s.2.1
  let hOld := s.2.2.1
  let tOld := s.2.2.2
  let alpha := q.elemDiv (q.dot gOld hOld) (q.dot hOld tOld)
  let fNew := q.sub fOld (q.scale hOld alpha)
  let gNew := q.sub gOld (q.scale tOld alpha)
  let beta := q.elemDiv (q.dot gNew gNew) (q.dot gOld gOld)
  let hNew := q.add (q.neg gNew) (q.scale hOld beta)
  let tNew := q.divByDiagonal (q.smDot hNew)
  (fNew, gNew, hNew, tNew)

/-- The tensor derived in each variational iteration (line 234):
`phTCond.calcVariational(outVectors[0], fNew, sMatrixDiagonalSqrt)` with
`outVectors[0] = smDot(fNew)`. -/
def cgCond {V M γ : Type} (q : CGParams V M γ) (s : V × V × V × V) : γ :=
  q.calcVariational (q.smDot s.1) s.1

/-- The variational solver's convergence test (line 239). -/
def cgConv {V M γ : Type} (q : CGParams V M γ) (c cOld : γ) : Bool :=
  decide (q.diffNormMaxCoeff c cOld < q.threshold)

/-- The initial conjugate-gradient state (lines 192-209), from the rescaled
canonical RTA population f0: gOld = smDot(f0)/diagonal - f0; hOld = -gOld;
tOld = smDot(hOld)/diagonal. -/
def cgInit {V M γ : Type} (q : CGParams V M γ) (f0 : V) : V × V × V × V :=
  let g0 := q.sub (q.divByDiagonal (q.smDot f0)) f0
  let h0 := q.neg g0
  let t0 := q.divByDiagonal (q.smDot h0)
  (f0, g0, h0, t0)

/-- The transport tensors produced by the variational solver's iterations. -/
def cgCondSeq {V M γ : Type} (q : CGParams V M γ) (f0 : V) : Nat → γ :=
  condSeq (cgStep q) (cgCond q) (cgInit q f0) q.condRTA

/-- Embeds the variational conjugate-gradient solver loop (lines 213-251). -/
def variationalSolver {V M γ : Type} (q : CGParams V M γ) (f0 : V)
    (maxIter : Nat) : Except String γ :=
  bteLoop (cgStep q) (cgCond q) (cgConv q) maxIter (cgInit q f0) q.condRTA

/-- A concrete iterative-solver instantiation (V = γ = ℚ) whose convergence
test never passes: the tensor-difference norm is constantly 1 with threshold 0. -/
def osNeverConverge : OSParams ℚ ℚ where
  offDiagonalDot := fun v => v
  divByDiagonal := fun v => v
  sub := fun a b => a - b
  fRTA := 1
  calcFromCanonicalPopulation := fun v => v
  condRTA := 0
  diffNormMaxCoeff := fun _ _ => 1
  threshold := 0

/-- A concrete variational-solver instantiation (V = M = γ = ℚ) whose
convergence test never passes. -/
def cgNeverConverge : CGParams ℚ ℚ ℚ where
  smDot := fun v => v
  divByDiagonal := fun v => v
  dot := fun a b => a * b
  elemDiv := fun a b => a / b
  scale := fun v m => v * m
  sub := fun a b => a - b
  neg := fun v => -v
  add := fun a b => a + b
  calcVariational := fun _ _ => 0
  condRTA := 0
  diffNormMaxCoeff := fun _ _ => 1
  threshold := 0

/-- A concrete iterative-solver instantiation that converges at the first
iteration: the tensor-difference norm is constantly 0, below the threshold 1. -/
def osConvergeAtOnce : OSParams ℚ ℚ where
  offDiagonalDot := fun v => v
  divByDiagonal := fun v => v
  sub := fun a b => a - b
  fRTA := 1
  calcFromCanonicalPopulation := fun v => v
  condRTA := 0
  diffNormMaxCoeff := fun _ _ => 0
  threshold := 1

/-- Dense square-matrix product: entry (i,j) is the dot of row i of a with
column j of b. -/
def matMul {n : Nat} (a b : Fin n → Fin n → ℚ) : Fin n → Fin n → ℚ :=
  fun i j => ∑ k, a i k * b k j

/-- Matrix transposition. -/
def matTranspose {n : Nat} (a : Fin n → Fin n → ℚ) : Fin n → Fin n → ℚ :=
  fun i j => a j i

/-- Apply a BLAS transpose flag: false is trans = N, true is trans = T. -/
def matOp {n : Nat} (t : Bool) (a : Fin n → Fin n → ℚ) : Fin n → Fin n → ℚ :=
  if t then matTranspose a else a

/-- Modelled from the spec: the serial BLAS-like GEMM kernel behind
mat.prod(b, trans1, trans2), whose implementation is not among the staged
sources, computes op(A)*op(B) with the flags selecting transposition. -/
def localGemm {n : Nat} (t1 t2 : Bool) (a b : Fin n → Fin n → ℚ) :
    Fin n → Fin n → ℚ :=
  matMul (matOp t1 a) (matOp t2 b)

/-- Modelled from the spec: the distributed ScaLAPACK-like GEMM kernel behind
pmat.prod, not among the staged sources, computes the same mathematical
op(A)*op(B); its transpose arguments default to no-transpose when omitted. -/
def distGemm {n : Nat} (t1 t2 : Bool) (a b : Fin n → Fin n → ℚ) :
    Fin n → Fin n → ℚ :=
  matMul (matOp t1 a) (matOp t2 b)

/-- Embeds the dense-matrix wrapper template class (SMatrix header): the
isDistributed flag together with the serial store `mat` and the distributed
store `pmat`; the logical content lives in whichever store the flag selects.
The scalar type is a parameter, read as double or complex. -/
structure MatrixT (α : Type) (n : Nat) where
  isDistributed : Bool
  mat : Fin n → Fin n → α
  pmat : Fin n → Fin n → α

/-- The store selected by the isDistributed flag. -/
def MatrixT.content {α : Type} {n : Nat} (m : MatrixT α n) : Fin n → Fin n → α :=
  if m.isDistributed then m.pmat else m.mat

/-- Embeds the explicit specialization of prod for Matrix of double
(SMatrix implementation, lines 15-22): the result c is a copy of the
receiver whose selected store receives the product; in the distributed
branch the source calls pmat.prod(that.pmat) WITHOUT forwarding
trans1/trans2, so the distributed kernel runs with its default
no-transpose flags. -/
def MatrixT.prodDouble {n : Nat} (self that : MatrixT ℚ n)
    (trans1 trans2 : Bool) : MatrixT ℚ n :=
  if self.isDistributed then
    { self with pmat := distGemm false false self.pmat that.pmat }
  else
    { self with mat := localGemm trans1 trans2 self.mat that.mat }

/-- Embeds the explicit specialization of prod for Matrix of complex
(lines 4-12): identical, except that the distributed branch forwards
trans1, trans2 to the distributed kernel. -/
def MatrixT.prodComplex {n : Nat} (self that : MatrixT ℚ n)
    (trans1 trans2 : Bool) : MatrixT ℚ n :=
  if self.isDistributed then
    { self with pmat := distGemm trans1 trans2 self.pmat that.pmat }
  else
    { self with mat := localGemm trans1 trans2 self.mat that.mat }

/-- The matrix A of the C3 failing input: single nonzero entry A(0,1) = 1. -/
def aBug : Fin 2 → Fin 2 → ℚ := fun i j => if i = 0 ∧ j = 1 then 1 else 0

/-- The matrix B of the C3 failing input: single nonzero entry B(0,0) = 1. -/
def bBug : Fin 2 → Fin 2 → ℚ := fun i j => if i = 0 ∧ j = 0 then 1 else 0

/-- Embeds Matrix diagonalize for both template specializations (lines 25-63;
the two are textually identical modulo the scalar type): eigenvalues go into
a fresh vector, eigenvectors into a copy of the receiver whose selected store
is replaced, and no statement assigns to the receiver. The underlying serial
and distributed eigensolver kernels are not among the staged sources;
modelled from the spec, which says diagonalize returns eigenvalues and a
matching eigenvector matrix: each kernel is a function returning that pair.
The result is ((eigenvalues, eigenvectors), the receiver's state after the
call). -/
def MatrixT.diagonalizeW {α : Type} {n : Nat}
    (localEig distEig : (Fin n → Fin n → α) → List ℚ × (Fin n → Fin n → α))
    (self : MatrixT α n) : (List ℚ × MatrixT α n) × MatrixT α n :=
  if self.isDistributed then
    (((distEig self.pmat).1, { self with pmat := (distEig self.pmat).2 }), self)
  else
    (((localEig self.mat).1, { self with mat := (localEig self.mat).2 }), self)

/-- Modelled from the spec: the scattering matrix's full matrix-vector
application dot(v) = A*v over the quasiparticle-state index (the
ScatteringMatrix implementation is not among the staged sources). -/
def smDot {n : Nat} (A : Fin n → Fin n → ℚ) (v : Fin n → ℚ) : Fin n → ℚ :=
  fun i => ∑ j, A i j * v j

/-- Modelled from the spec: the diagonal extraction diagonal(). -/
def smDiagonal {n : Nat} (A : Fin n → Fin n → ℚ) : Fin n → ℚ :=
  fun i => A i i

/-- Modelled from the spec: offDiagonalDot(v) computes A*v and then subtracts
diag(A)*v elementwise, without materializing A - diag(A). -/
def offDiagonalDot {n : Nat} (A : Fin n → Fin n → ℚ) (v : Fin n → ℚ) :
    Fin n → ℚ :=
  fun i => smDot A v i - smDiagonal A i * v i

/-- The matrix A with its diagonal zeroed, for the explicit comparison the
spec demands. -/
def zeroDiagonal {n : Nat} (A : Fin n → Fin n → ℚ) : Fin n → Fin n → ℚ :=
  fun i j => if i = j then 0 else A i j

/-- Modelled from the spec: VectorBTE population2Canonical divides each entry
(the index bundles calculation, Cartesian direction and quasiparticle state)
by the occupation-factor derivative bose*(bose+1), turning a population n
into the canonical f with n = bose(bose+1) f; the VectorBTE implementation
is not among the staged sources. -/
def population2Canonical {ι : Type} (bose v : ι → ℚ) : ι → ℚ :=
  fun i => v i / (bose i * (bose i + 1))

/-- Modelled from the spec: the inverse rescaling, multiplying each entry by
the occupation-factor derivative. -/
def canonical2Population {ι : Type} (bose v : ι → ℚ) : ι → ℚ :=
  fun i => v i * (bose i * (bose i + 1))

/-- Monotone telescoping sequences of naturals cover each point of
[a 0, a P) by exactly the interval it falls in; existence half. -/
theorem exists_range_of_lt (a : Nat → Nat) :
    ∀ P i, a 0 ≤ i → i < a P → ∃ r, r < P ∧ a r ≤ i ∧ i < a (r + 1) := by
  intro P
  induction P with
  | zero => intro i h0 hP; omega
  | succ P ih =>
    intro i h0 hP
    by_cases h : a P ≤ i
    · exact ⟨P, Nat.lt_succ_self P, h, hP⟩
    · obtain ⟨r, hr, h1, h2⟩ := ih i h0 (by omega)
      exact ⟨r, by omega, h1, h2⟩

/-- The range heads are monotone in the rank. -/
theorem workDivisionHead_mono (numTasks P : Nat) {r s : Nat} (h : r ≤ s) :
    workDivisionHead numTasks P r ≤ workDivisionHead numTasks P s :=
  Nat.div_le_div_right (Nat.mul_le_mul_left numTasks h)

/-- Each rank's tail is the next rank's head. -/
theorem workDivisionTail_eq_head_succ (numTasks P r : Nat) :
    workDivisionTail numTasks P r = workDivisionHead numTasks P (r + 1) := rfl

/-- C6: for every numTasks and every process count P ≥ 1, the per-rank
half-open ranges [numTasks*r/P, numTasks*(r+1)/P) of divideWork cover
[0, numTasks) exactly, and distinct ranks' ranges are disjoint. -/
theorem divideWork_complete_disjoint_partition (numTasks P : Nat) (hP : 1 ≤ P) :
    (∀ i, i < numTasks ↔ ∃ r, r < P ∧
        workDivisionHead numTasks P r ≤ i ∧ i < workDivisionTail numTasks P r) ∧
    (∀ r s i, r < P → s < P → r ≠ s →
      ¬(workDivisionHead numTasks P r ≤ i ∧ i < workDivisionTail numTasks P r ∧
        workDivisionHead numTasks P s ≤ i ∧ i < workDivisionTail numTasks P s)) := by
  have hhead0 : workDivisionHead numTasks P 0 = 0 := by
    simp [workDivisionHead]
  have hheadP : workDivisionHead numTasks P P = numTasks := by
    unfold workDivisionHead
    exact Nat.mul_div_cancel numTasks hP
  constructor
  · intro i
    constructor
    · intro hi
      apply exists_range_of_lt (fun r => workDivisionHead numTasks P r) P i
      · omega
      · omega
    · rintro ⟨r, hr, _, h2⟩
      have h3 : workDivisionTail numTasks P r ≤ workDivisionHead numTasks P P := by
        rw [workDivisionTail_eq_head_succ]
        exact workDivisionHead_mono numTasks P (by omega)
      omega
  · intro r s i hr hs hne ⟨hr1, hr2, hs1, hs2⟩
    rcases Nat.lt_or_ge r s with hlt | hge
    · have : workDivisionTail numTasks P r ≤ workDivisionHead numTasks P s := by
        rw [workDivisionTail_eq_head_succ]
        exact workDivisionHead_mono numTasks P hlt
      omega
    · have hlt : s < r := by omega
      have : workDivisionTail numTasks P s ≤ workDivisionHead numTasks P r := by
        rw [workDivisionTail_eq_head_succ]
        exact workDivisionHead_mono numTasks P hlt
      omega

/-- Witness for C6 at numTasks = 5, P = 2. -/
theorem divideWork_complete_disjoint_partition_witness :
    (1 ≤ 2) ∧
    ((∀ i, i < 5 ↔ ∃ r, r < 2 ∧
        workDivisionHead 5 2 r ≤ i ∧ i < workDivisionTail 5 2 r) ∧
    (∀ r s i, r < 2 → s < 2 → r ≠ s →
      ¬(workDivisionHead 5 2 r ≤ i ∧ i < workDivisionTail 5 2 r ∧
        workDivisionHead 5 2 s ≤ i ∧ i < workDivisionTail 5 2 s))) :=
  ⟨by decide, divideWork_complete_disjoint_partition 5 2 (by decide)⟩

/-- C7: at startup the BLACS grid is fixed to P×P with P = floor(sqrt(size));
a process count that is a perfect square yields that grid, and any
non-perfect-square process count is a fatal startup error. -/
theorem blacs_grid_square_iff_ok (size : Nat) :
    (blacsGridInit size = Except.ok (Nat.sqrt size, Nat.sqrt size) ↔
      ∃ p, size = p * p) ∧
    (blacsGridInit size = Except.error "Phoebe needs a square number of MPI processes" ↔
      ¬ ∃ p, size = p * p) := by
  have hle : Nat.sqrt size * Nat.sqrt size ≤ size := Nat.sqrt_le size
  have hsq : (∃ p, size = p * p) ↔ Nat.sqrt size * Nat.sqrt size = size := by
    constructor
    · rintro ⟨p, rfl⟩
      rw [Nat.sqrt_eq]
    · intro h
      exact ⟨Nat.sqrt size, h.symm⟩
  by_cases h : Nat.sqrt size * Nat.sqrt size = size
  · have hnl : ¬ Nat.sqrt size * Nat.sqrt size < size := by omega
    constructor
    · simp [blacsGridInit, hnl, hsq, h]
    · simp [blacsGridInit, hnl, hsq, h]
  · have hlt : Nat.sqrt size * Nat.sqrt size < size := by omega
    constructor
    · simp [blacsGridInit, hlt, hsq, h]
    · simp [blacsGridInit, hlt, hsq, h]

/-- C1: requesting the relaxons solver without the scattering matrix kept in
memory, or keeping the matrix in memory with more than one
temperature/chemical-potential calculation, makes the run terminate with an
error before any exact solver executes: a hard precondition, not a warning. -/
theorem run_precondition_fatal (cfg : RunConfig)
    (h : (cfg.solverBTE.contains "relaxons" = true ∧
          cfg.scatteringMatrixInMemory = false) ∨
         (cfg.scatteringMatrixInMemory = true ∧ 1 < cfg.numCalcs)) :
    (phononTransportRun cfg).2.isSome = true ∧
    RunEvent.iterativeRun ∉ (phononTransportRun cfg).1 ∧
    RunEvent.variationalRun ∉ (phononTransportRun cfg).1 ∧
    RunEvent.relaxonsRun ∉ (phononTransportRun cfg).1 := by
  rcases h with ⟨h1, h2⟩ | ⟨h1, h2⟩
  · simp only [phononTransportRun]
    rw [h1, h2]
    simp
  · have hne : (cfg.numCalcs != 1) = true := by
      simp only [bne_iff_ne, ne_eq]
      omega
    simp only [phononTransportRun]
    rw [h1, hne]
    simp

/-- Witness for C1: relaxons requested, matrix not in memory. -/
theorem run_precondition_fatal_witness :
    (((["relaxons"] : List String).contains "relaxons" = true ∧
        (RunConfig.mk ["relaxons"] false 1).scatteringMatrixInMemory = false) ∨
      ((RunConfig.mk ["relaxons"] false 1).scatteringMatrixInMemory = true ∧
        1 < (RunConfig.mk ["relaxons"] false 1).numCalcs)) ∧
    ((phononTransportRun (RunConfig.mk ["relaxons"] false 1)).2.isSome = true ∧
     RunEvent.iterativeRun ∉ (phononTransportRun (RunConfig.mk ["relaxons"] false 1)).1 ∧
     RunEvent.variationalRun ∉ (phononTransportRun (RunConfig.mk ["relaxons"] false 1)).1 ∧
     RunEvent.relaxonsRun ∉ (phononTransportRun (RunConfig.mk ["relaxons"] false 1)).1) :=
  ⟨Or.inl ⟨by decide, rfl⟩,
   run_precondition_fatal (RunConfig.mk ["relaxons"] false 1) (Or.inl ⟨by decide, rfl⟩)⟩

/-- C2 counterexample: with relaxons requested, the matrix in memory and two
calculations, the run does execute the scattering-matrix setup (assembly)
strictly before the validation block that raises the in-memory precondition
error, refuting the claim that the check precedes the setup() call. -/
theorem setup_precedes_precondition_check :
    (phononTransportRun (RunConfig.mk ["relaxons"] true 2)).1 =
      [RunEvent.setup, RunEvent.rtaSolve, RunEvent.precondCheck] ∧
    (phononTransportRun (RunConfig.mk ["relaxons"] true 2)).2 =
      some "If scattering matrix is kept in memory, only one temperature/chemical potential is allowed in a run" ∧
    List.findIdx (fun e => e == RunEvent.setup)
        (phononTransportRun (RunConfig.mk ["relaxons"] true 2)).1 <
      List.findIdx (fun e => e == RunEvent.precondCheck)
        (phononTransportRun (RunConfig.mk ["relaxons"] true 2)).1 := by
  refine ⟨by decide, ?_, by decide⟩
  decide

/-- C2 amended: with the matrix kept in memory and more than one calculation,
the in-memory precondition error is raised by the validation block, which runs
after the unconditional setup()/assembly stage but before any exact
(iterative/variational/relaxons) solver work begins. -/
theorem precondition_after_setup_before_solvers (cfg : RunConfig)
    (h1 : cfg.scatteringMatrixInMemory = true) (h2 : 1 < cfg.numCalcs) :
    (phononTransportRun cfg).1 =
      [RunEvent.setup, RunEvent.rtaSolve, RunEvent.precondCheck] ∧
    (phononTransportRun cfg).2 =
      some "If scattering matrix is kept in memory, only one temperature/chemical potential is allowed in a run" := by
  have hne : (cfg.numCalcs != 1) = true := by
    simp only [bne_iff_ne, ne_eq]
    omega
  simp only [phononTransportRun]
  rw [h1, hne]
  simp

/-- Witness for the amended C2 at a run requesting the iterative solver with
two calculations and the matrix in memory. -/
theorem precondition_after_setup_before_solvers_witness :
    ((RunConfig.mk ["iterative"] true 2).scatteringMatrixInMemory = true ∧
      1 < (RunConfig.mk ["iterative"] true 2).numCalcs) ∧
    ((phononTransportRun (RunConfig.mk ["iterative"] true 2)).1 =
      [RunEvent.setup, RunEvent.rtaSolve, RunEvent.precondCheck] ∧
    (phononTransportRun (RunConfig.mk ["iterative"] true 2)).2 =
      some "If scattering matrix is kept in memory, only one temperature/chemical potential is allowed in a run") :=
  ⟨⟨rfl, by decide⟩,
   precondition_after_setup_before_solvers (RunConfig.mk ["iterative"] true 2) rfl (by decide)⟩

/-- Unfolding the state sequence one step. -/
theorem stateSeq_succ {σ : Type} (step : σ → σ) (s0 : σ) (k : Nat) :
    stateSeq step s0 (k + 1) = step (stateSeq step s0 k) := rfl

/-- Unfolding the tensor sequence one step. -/
theorem condSeq_succ {σ γ : Type} (step : σ → σ) (condOf : σ → γ) (s0 : σ)
    (c0 : γ) (k : Nat) :
    condSeq step condOf s0 c0 (k + 1) = condOf (step (stateSeq step s0 k)) := rfl

/-- Unfolding the loop one iteration. -/
theorem bteLoop_succ {σ γ : Type} (step : σ → σ) (condOf : σ → γ)
    (conv : γ → γ → Bool) (fuel : Nat) (s : σ) (condOld : γ) :
    bteLoop step condOf conv (fuel + 1) s condOld =
      (if conv (condOf (step s)) condOld then Except.ok (condOf (step s))
       else if fuel = 0 then
         Except.error "Reached max BTE iterations without convergence"
       else bteLoop step condOf conv fuel (step s) (condOf (step s))) := rfl

/-- If the convergence test fails at every iteration of the budget, the loop
ends in the fatal convergence error. -/
theorem bteLoop_exhausted {σ γ : Type} (step : σ → σ) (condOf : σ → γ)
    (conv : γ → γ → Bool) (s0 : σ) (c0 : γ) :
    ∀ f k, (∀ j, j < k + (f + 1) →
        conv (condSeq step condOf s0 c0 (j + 1)) (condSeq step condOf s0 c0 j) = false) →
      bteLoop step condOf conv (f + 1) (stateSeq step s0 k) (condSeq step condOf s0 c0 k) =
        Except.error "Reached max BTE iterations without convergence" := by
  intro f
  induction f with
  | zero =>
    intro k h
    have hc := h k (by omega)
    rw [bteLoop_succ, ← condSeq_succ step condOf s0 c0 k, hc]
    simp
  | succ f ih =>
    intro k h
    have hc := h k (by omega)
    have hfne : ¬(f + 1 = 0) := by omega
    rw [bteLoop_succ, ← condSeq_succ step condOf s0 c0 k, hc,
      if_neg Bool.false_ne_true, if_neg hfne, ← stateSeq_succ step s0 k]
    exact ih (k + 1) (fun j hj => h j (by omega))

/-- If the convergence test first passes at iteration K within the budget, the
loop stops right there and returns the tensor of that iteration. -/
theorem bteLoop_first_convergence {σ γ : Type} (step : σ → σ) (condOf : σ → γ)
    (conv : γ → γ → Bool) (s0 : σ) (c0 : γ) :
    ∀ K k fuel, K < fuel →
      (∀ j, j < K →
        conv (condSeq step condOf s0 c0 (k + j + 1)) (condSeq step condOf s0 c0 (k + j)) = false) →
      conv (condSeq step condOf s0 c0 (k + K + 1)) (condSeq step condOf s0 c0 (k + K)) = true →
      bteLoop step condOf conv fuel (stateSeq step s0 k) (condSeq step condOf s0 c0 k) =
        Except.ok (condSeq step condOf s0 c0 (k + K + 1)) := by
  intro K
  induction K with
  | zero =>
    intro k fuel hf hb hc
    obtain ⟨f, rfl⟩ : ∃ f, fuel = f + 1 := ⟨fuel - 1, by omega⟩
    simp only [Nat.add_zero] at hc
    rw [bteLoop_succ, ← condSeq_succ step condOf s0 c0 k, hc]
    simp
  | succ K ih =>
    intro k fuel hf hb hc
    obtain ⟨f, rfl⟩ : ∃ f, fuel = f + 1 := ⟨fuel - 1, by omega⟩
    have h0 := hb 0 (by omega)
    simp only [Nat.add_zero] at h0
    have hfne : ¬(f = 0) := by omega
    rw [bteLoop_succ, ← condSeq_succ step condOf s0 c0 k, h0,
      if_neg Bool.false_ne_true, if_neg hfne, ← stateSeq_succ step s0 k]
    have e : k + (K + 1) + 1 = k + 1 + K + 1 := by omega
    rw [e]
    refine ih (k + 1) f (by omega) ?_ ?_
    · intro j hj
      have hb1 := hb (j + 1) (by omega)
      have e2 : k + (j + 1) + 1 = k + 1 + j + 1 := by omega
      have e3 : k + (j + 1) = k + 1 + j := by omega
      rw [e2, e3] at hb1
      exact hb1
    · have e2 : k + (K + 1) + 1 = k + 1 + K + 1 := by omega
      have e3 : k + (K + 1) = k + 1 + K := by omega
      rw [e2, e3] at hc
      exact hc

/-- C4: when the convergence test fails at every iteration of the configured
budget (maxIter ≥ 1), both the Omini-Sparavigna iterative solver and the
variational conjugate-gradient solver end in the fatal error
"Reached max BTE iterations without convergence"; a non-converged tensor is
never returned as a success. -/
theorem solvers_error_on_exhausted_iterations {V M γ δ : Type}
    (p : OSParams V γ) (q : CGParams V M δ) (f0 : V) (maxIter : Nat)
    (hmax : 1 ≤ maxIter)
    (hIt : ∀ j, j < maxIter →
      osConv p (osCondSeq p (j + 1)) (osCondSeq p j) = false)
    (hVar : ∀ j, j < maxIter →
      cgConv q (cgCondSeq q f0 (j + 1)) (cgCondSeq q f0 j) = false) :
    iterativeSolver p maxIter =
      Except.error "Reached max BTE iterations without convergence" ∧
    variationalSolver q f0 maxIter =
      Except.error "Reached max BTE iterations without convergence" := by
  obtain ⟨f, rfl⟩ : ∃ f, maxIter = f + 1 := ⟨maxIter - 1, by omega⟩
  constructor
  · exact bteLoop_exhausted (osStep p) p.calcFromCanonicalPopulation (osConv p)
      p.fRTA p.condRTA f 0 (fun j hj => hIt j (by omega))
  · exact bteLoop_exhausted (cgStep q) (cgCond q) (cgConv q)
      (cgInit q f0) q.condRTA f 0 (fun j hj => hVar j (by omega))

/-- C5: each iterative-solver iteration computes
fNext = fRTA - offDiagonalDot(fOld)/diagonal, and the loop returns
successfully with the tensor of the first iteration K whose tensor change
passes the convergence test (strictly below the threshold). -/
theorem iterative_recurrence_and_convergence {V γ : Type} (p : OSParams V γ)
    (maxIter K : Nat) (hK : K < maxIter)
    (hbefore : ∀ j, j < K →
      osConv p (osCondSeq p (j + 1)) (osCondSeq p j) = false)
    (hconv : osConv p (osCondSeq p (K + 1)) (osCondSeq p K) = true) :
    (∀ k, stateSeq (osStep p) p.fRTA (k + 1) =
      p.sub p.fRTA (p.divByDiagonal (p.offDiagonalDot (stateSeq (osStep p) p.fRTA k)))) ∧
    iterativeSolver p maxIter = Except.ok (osCondSeq p (K + 1)) := by
  refine ⟨fun k => rfl, ?_⟩
  have h := bteLoop_first_convergence (osStep p) p.calcFromCanonicalPopulation
    (osConv p) p.fRTA p.condRTA K 0 maxIter hK
    (fun j hj => by simpa using hbefore j hj) (by simpa using hconv)
  simpa [iterativeSolver, osCondSeq] using h

/-- Witness for C4: with a two-iteration budget and a convergence test that
never passes, both solvers end in the fatal convergence error. -/
theorem solvers_error_on_exhausted_iterations_witness :
    ((1 : Nat) ≤ 2) ∧
    (iterativeSolver osNeverConverge 2 =
      Except.error "Reached max BTE iterations without convergence" ∧
    variationalSolver cgNeverConverge 1 2 =
      Except.error "Reached max BTE iterations without convergence") :=
  ⟨by decide,
   solvers_error_on_exhausted_iterations osNeverConverge cgNeverConverge 1 2
     (by decide) (by decide) (by decide)⟩

/-- Witness for C5: a solver instantiation that converges at the first
iteration returns that iteration's tensor successfully. -/
theorem iterative_recurrence_and_convergence_witness :
    ((0 : Nat) < 5) ∧
    ((∀ k, stateSeq (osStep osConvergeAtOnce) osConvergeAtOnce.fRTA (k + 1) =
      osConvergeAtOnce.sub osConvergeAtOnce.fRTA
        (osConvergeAtOnce.divByDiagonal
          (osConvergeAtOnce.offDiagonalDot
            (stateSeq (osStep osConvergeAtOnce) osConvergeAtOnce.fRTA k)))) ∧
    iterativeSolver osConvergeAtOnce 5 = Except.ok (osCondSeq osConvergeAtOnce 1)) :=
  ⟨by decide,
   iterative_recurrence_and_convergence osConvergeAtOnce 5 0 (by decide)
     (by decide) (by decide)⟩

/-- C3 evaluated at the failing input: on the double specialization the
distributed mode ignores the transpose flags. With A having single nonzero
entry (0,1) = 1, B single nonzero entry (0,0) = 1 and trans1 = T: the
single-process product computes op(A)*B with entry (1,0) = 1, while the
distributed product computes A*B with entry (1,0) = 0 — the two modes
disagree. The complex specialization forwards the flags and agrees between
modes on every input and flag combination. -/
theorem prodDouble_drops_transpose_distributed :
    ((MatrixT.mk true aBug aBug).prodDouble (MatrixT.mk true bBug bBug)
        true false).content 1 0 = 0 ∧
    ((MatrixT.mk false aBug aBug).prodDouble (MatrixT.mk false bBug bBug)
        true false).content 1 0 = 1 ∧
    (∀ (t1 t2 : Bool) (a b : Fin 2 → Fin 2 → ℚ),
      ((MatrixT.mk true a a).prodComplex (MatrixT.mk true b b) t1 t2).content =
        ((MatrixT.mk false a a).prodComplex (MatrixT.mk false b b) t1 t2).content) := by
  refine ⟨?_, ?_, fun t1 t2 a b => rfl⟩
  · show distGemm false false aBug bBug 1 0 = 0
    simp [distGemm, matMul, matOp, aBug, bBug, Fin.sum_univ_two]
  · show localGemm true false aBug bBug 1 0 = 1
    simp [localGemm, matMul, matOp, matTranspose, aBug, bBug, Fin.sum_univ_two]

/-- C10: Matrix diagonalize (either specialization, either mode) leaves the
receiver unchanged; the eigenvalues are the kernel's fresh vector and the
eigenvector matrix is a copy of the receiver with only its selected store
replaced by the kernel's output. -/
theorem diagonalize_preserves_receiver {α : Type} {n : Nat}
    (localEig distEig : (Fin n → Fin n → α) → List ℚ × (Fin n → Fin n → α))
    (self : MatrixT α n) :
    (MatrixT.diagonalizeW localEig distEig self).2 = self ∧
    (MatrixT.diagonalizeW localEig distEig self).1.1 =
      (if self.isDistributed then (distEig self.pmat).1 else (localEig self.mat).1) ∧
    (MatrixT.diagonalizeW localEig distEig self).1.2 =
      (if self.isDistributed then { self with pmat := (distEig self.pmat).2 }
       else { self with mat := (localEig self.mat).2 }) := by
  rcases self with ⟨d, m, pm⟩
  cases d
  · exact ⟨rfl, rfl, rfl⟩
  · exact ⟨rfl, rfl, rfl⟩

/-- C8: offDiagonalDot equals dot minus the elementwise product of the
diagonal with the vector, and equals the explicit zero-diagonal
matrix-vector multiply, exactly. -/
theorem offDiagonalDot_eq_zero_diagonal_multiply {n : Nat}
    (A : Fin n → Fin n → ℚ) (v : Fin n → ℚ) :
    (∀ i, offDiagonalDot A v i = smDot A v i - smDiagonal A i * v i) ∧
    (∀ i, offDiagonalDot A v i = smDot (zeroDiagonal A) v i) := by
  refine ⟨fun i => rfl, fun i => ?_⟩
  unfold offDiagonalDot smDot smDiagonal zeroDiagonal
  have h1 : (∑ j, A i j * v j) =
      A i i * v i + ∑ j in Finset.univ.erase i, A i j * v j :=
    (Finset.add_sum_erase Finset.univ (fun j => A i j * v j)
      (Finset.mem_univ i)).symm
  have h2 : (∑ j, (if i = j then (0:ℚ) else A i j) * v j) =
      (if i = i then (0:ℚ) else A i i) * v i +
        ∑ j in Finset.univ.erase i, (if i = j then (0:ℚ) else A i j) * v j :=
    (Finset.add_sum_erase Finset.univ
      (fun j => (if i = j then (0:ℚ) else A i j) * v j) (Finset.mem_univ i)).symm
  have h3 : ∀ j ∈ Finset.univ.erase i,
      (if i = j then (0:ℚ) else A i j) * v j = A i j * v j := by
    intro j hj
    rw [if_neg (Ne.symm (Finset.ne_of_mem_erase hj))]
  rw [h1, h2, if_pos rfl, Finset.sum_congr rfl h3, zero_mul, zero_add,
    add_sub_cancel_left]

/-- C9: population2Canonical followed by its inverse, in either order,
reproduces the original vector exactly whenever the occupation-factor
derivative is nonzero at every state. -/
theorem population2Canonical_roundtrip {ι : Type} (bose v : ι → ℚ)
    (h : ∀ i, bose i * (bose i + 1) ≠ 0) :
    canonical2Population bose (population2Canonical bose v) = v ∧
    population2Canonical bose (canonical2Population bose v) = v := by
  constructor
  · funext i
    exact div_mul_cancel₀ (v i) (h i)
  · funext i
    exact mul_div_cancel_right₀ (v i) (h i)

/-- Witness for C9 at bose = (1, 2) and v = (3, 5). -/
theorem population2Canonical_roundtrip_witness :
    (∀ i : Fin 2, (![1, 2] : Fin 2 → ℚ) i * ((![1, 2] : Fin 2 → ℚ) i + 1) ≠ 0) ∧
    (canonical2Population ![1, 2] (population2Canonical ![1, 2] ![3, 5]) =
      (![3, 5] : Fin 2 → ℚ) ∧
    population2Canonical ![1, 2] (canonical2Population ![1, 2] ![3, 5]) =
      (![3, 5] : Fin 2 → ℚ)) :=
  ⟨by intro i; fin_cases i <;> norm_num,
   population2Canonical_roundtrip ![1, 2] ![3, 5]
     (by intro i; fin_cases i <;> norm_num)⟩
